import Mathlib

/-!
# Closure demonstrations of `lambda_examples.cpp`

A shallow embedding of `demonstrateLambdaExpressions` and of the lambdas it
defines.

* `int` is `Int`; the result of `+`, `+=`, `++` and `*` on `int` is reduced
  to the 32-bit two's-complement range by `wrapInt` (what the usual targets
  compute; the language leaves signed overflow undefined).  Every statement
  about the value of an arithmetic result carries the hypothesis that the
  exact result is representable, under which `wrapInt` is the identity.
* `%` is the truncated remainder of C++, `Int.tmod`.
* The locals of `demonstrateLambdaExpressions` are the fields of `Frame`;
  `std::cout` is the token list `State.cout`.
* A closure object is a structure holding its by-value captures; a by-reference
  capture is the field of the enclosing `Frame` itself.  Calling a closure is
  a function of the closure object, its arguments and the `State`.
-/

namespace LambdaExamples

/-! ## Machine integers -/

/-- Smallest value of `int`. -/
def INT_MIN : Int := -2147483648

/-- Largest value of `int`. -/
def INT_MAX : Int := 2147483647

/-- The value is representable in `int`. -/
def inRange (z : Int) : Prop := INT_MIN ≤ z ∧ z ≤ INT_MAX

instance (z : Int) : Decidable (inRange z) := by
  unfold inRange; infer_instance

/-- Reduction of an exact arithmetic result to 32-bit two's complement. -/
def wrapInt (z : Int) : Int := (z + 2147483648) % 4294967296 - 2147483648

/-! ## Output stream and local variables -/

/-- One item written to `std::cout` with `<<`. -/
inductive Tok where
  | str (s : String)
  | num (n : Int)
  | endl
  deriving DecidableEq, Repr

/-- The local `int` and `std::vector<int>` variables of
`demonstrateLambdaExpressions`. -/
structure Frame where
  x : Int
  y : Int
  a : Int
  b : Int
  c : Int
  numbers : List Int
  evenNumbers : List Int
  counter : Int
  deriving DecidableEq, Repr

/-- Program state seen by a closure body: the enclosing locals and what has
been written to `std::cout`. -/
structure State where
  vars : Frame
  cout : List Tok
  deriving DecidableEq, Repr

/-- The statement `std::cout << t₁ << t₂ << ...;`. -/
def put (ts : List Tok) (s : State) : State :=
  { s with cout := s.cout ++ ts }

/-- The `int` values written to the stream, in order (string literals and
line ends dropped). -/
def numericValues : List Tok → List Int
  | [] => []
  | Tok.num n :: ts => n :: numericValues ts
  | _ :: ts => numericValues ts

/-! ## Steps 1-5: closures without and with captures -/

/-- The lambda `simpleLambda`, lines 9-11: no parameters, no captures. -/
def simpleLambda (s : State) : State :=
  put [Tok.str "Hello from a simple lambda!\n"] s

/-- The lambda `addNumbers`, lines 16-18: `[](int a, int b) { return a + b; }`.
Returns the value and the state it leaves. -/
def addNumbers (a b : Int) (s : State) : Int × State :=
  (wrapInt (a + b), s)

/-- Closure object of `[x]() { ... }`, line 24: the copy of `x` taken when the
lambda expression is evaluated. -/
structure CaptureByValue where
  x : Int
  deriving DecidableEq, Repr

/-- Evaluation of the lambda expression of line 24 in the enclosing scope. -/
def captureByValue (vars : Frame) : CaptureByValue :=
  { x := vars.x }

/-- Invocation `captureByValue()`: prints the copy held by the closure. -/
def CaptureByValue.call (f : CaptureByValue) (s : State) : State :=
  put [Tok.str "Captured value: ", Tok.num f.x, Tok.endl] s

/-- Invocation `captureByReference()`, lines 32-35: `[&y]` holds no copy, the
body works on the enclosing `y`: `y += 5;` and then `y` is printed. -/
def captureByReference (s : State) : State :=
  let s1 : State := { s with vars := { s.vars with y := wrapInt (s.vars.y + 5) } }
  put [Tok.str "Modified y: ", Tok.num s1.vars.y, Tok.endl] s1

/-- Closure object of `[=, &b]() { ... }`, line 42: copies of `a` and `c`
(the by-value default applies to the variables the body uses); `b` is the
enclosing variable. -/
structure CaptureAll where
  a : Int
  c : Int
  deriving DecidableEq, Repr

/-- Evaluation of the lambda expression of line 42 in the enclosing scope. -/
def captureAll (vars : Frame) : CaptureAll :=
  { a := vars.a, c := vars.c }

/-- Invocation `captureAll()`, lines 44-45: the three values are printed, then
`b += 10;` on the enclosing `b`. -/
def CaptureAll.call (f : CaptureAll) (s : State) : State :=
  let s1 : State :=
    put [Tok.str "a: ", Tok.num f.a, Tok.str ", b: ", Tok.num s.vars.b,
         Tok.str ", c: ", Tok.num f.c, Tok.endl] s
  { s1 with vars := { s1.vars with b := wrapInt (s1.vars.b + 10) } }

/-! ## Step 6: `std::copy_if` with the even predicate -/

/-- The predicate lambda `[](int n) { return n % 2 == 0; }`. -/
def isEven (n : Int) : Bool := Int.tmod n 2 == 0

/-- The loop of `std::copy_if(first, last, std::back_inserter(dest), pred)`:
each element for which `pred` holds is pushed to the back of `dest`. -/
def copy_if (pred : Int → Bool) : List Int → List Int → List Int
  | [], dest => dest
  | n :: rest, dest => copy_if pred rest (if pred n then dest ++ [n] else dest)

/-- Lines 55-58: `evenNumbers` starts empty and receives the even elements of
`numbers`. -/
def filterEven (numbers : List Int) : List Int :=
  copy_if isEven numbers []

/-- The range-for loop of lines 61-63: each element is written, followed by a
blank. -/
def printEach : List Int → State → State
  | [], s => s
  | num :: rest, s => printEach rest (put [Tok.num num, Tok.str " "] s)

/-! ## Step 7: the mutable lambda -/

/-- Closure object of `[counter]() mutable { return ++counter; }`, line 69:
its own copy of `counter`. -/
structure MutableLambda where
  counter : Int
  deriving DecidableEq, Repr

/-- Evaluation of the lambda expression of line 69 in the enclosing scope. -/
def mutableLambda (vars : Frame) : MutableLambda :=
  { counter := vars.counter }

/-- Invocation `mutableLambda()`: `++counter` on the closure's copy, whose new
value is returned.  The result is the value, the closure object after the call
and the state. -/
def MutableLambda.call (f : MutableLambda) (s : State) :
    Int × MutableLambda × State :=
  let f1 : MutableLambda := { counter := wrapInt (f.counter + 1) }
  (f1.counter, f1, s)

/-! ## Step 8: the closure factory -/

/-- Closure object of the inner lambda `[factor](int x) { return x * factor; }`,
line 78: its own copy of `factor`. -/
structure Multiplied where
  factor : Int
  deriving DecidableEq, Repr

/-- The lambda `multiplier`, lines 77-81: returns a new inner closure holding
`factor`. -/
def multiplier (factor : Int) (s : State) : Multiplied × State :=
  ({ factor := factor }, s)

/-- Invocation of a closure returned by `multiplier`: `return x * factor;`. -/
def Multiplied.call (f : Multiplied) (x : Int) (s : State) : Int × State :=
  (wrapInt (x * f.factor), s)

/-! ## The demonstration, step by step -/

/-- Lines 8-12. -/
def step1 (s : State) : State :=
  let s := put [Tok.str "1. Basic Lambda (No parameters):\n"] s
  simpleLambda s

/-- Lines 15-19. -/
def step2 (s : State) : State :=
  let s := put [Tok.str "\n2. Lambda with Parameters:\n"] s
  let r := addNumbers 5 3 s
  put [Tok.str "5 + 3 = ", Tok.num r.1, Tok.endl] r.2

/-- Lines 22-27. -/
def step3 (s : State) : State :=
  let s := put [Tok.str "\n3. Capture by Value:\n"] s
  let s : State := { s with vars := { s.vars with x := 10 } }
  let f := captureByValue s.vars
  f.call s

/-- Lines 30-37. -/
def step4 (s : State) : State :=
  let s := put [Tok.str "\n4. Capture by Reference:\n"] s
  let s : State := { s with vars := { s.vars with y := 20 } }
  let s := captureByReference s
  put [Tok.str "y after lambda: ", Tok.num s.vars.y, Tok.endl] s

/-- Lines 40-48. -/
def step5 (s : State) : State :=
  let s := put [Tok.str "\n5. Capture All:\n"] s
  let s : State := { s with vars := { s.vars with a := 1, b := 2, c := 3 } }
  let f := captureAll s.vars
  let s := f.call s
  put [Tok.str "b after lambda: ", Tok.num s.vars.b, Tok.endl] s

/-- Lines 51-64. -/
def step6 (s : State) : State :=
  let s := put [Tok.str "\n6. Lambda with STL Algorithms:\n"] s
  let s : State :=
    { s with vars := { s.vars with numbers := [1, 2, 3, 4, 5, 6, 7, 8, 9, 10] } }
  let s : State :=
    { s with vars := { s.vars with evenNumbers := filterEven s.vars.numbers } }
  let s := put [Tok.str "Even numbers: "] s
  let s := printEach s.vars.evenNumbers s
  put [Tok.endl] s

/-- Lines 67-73. -/
def step7 (s : State) : State :=
  let s := put [Tok.str "\n7. Mutable Lambda:\n"] s
  let s : State := { s with vars := { s.vars with counter := 0 } }
  let f := mutableLambda s.vars
  let r1 := f.call s
  let s := put [Tok.str "First call: ", Tok.num r1.1, Tok.endl] r1.2.2
  let r2 := r1.2.1.call s
  put [Tok.str "Second call: ", Tok.num r2.1, Tok.endl] r2.2.2

/-- Lines 76-87. -/
def step8 (s : State) : State :=
  let s := put [Tok.str "\n8. Lambda Returning a Function:\n"] s
  let d := multiplier 2 s
  let doubler := d.1
  let t := multiplier 3 d.2
  let tripler := t.1
  let r := doubler.call 5 t.2
  let s := put [Tok.str "Double 5: ", Tok.num r.1, Tok.endl] r.2
  let r := tripler.call 5 s
  put [Tok.str "Triple 5: ", Tok.num r.1, Tok.endl] r.2

/-- The locals before their declarations are reached. -/
def frame0 : Frame :=
  { x := 0, y := 0, a := 0, b := 0, c := 0, numbers := [], evenNumbers := [],
    counter := 0 }

/-- The function `demonstrateLambdaExpressions`, lines 6-88, as a function from
what `std::cout` holds before the call to what it holds after. -/
def demonstrateLambdaExpressions (cout : List Tok) : List Tok :=
  (step8 (step7 (step6 (step5 (step4 (step3 (step2 (step1
    { vars := frame0, cout := cout })))))))).cout

/-! ## Repeated invocation (used to state the claims on successive calls) -/

/-- The closure `f` invoked `n` times in succession. -/
def CaptureByValue.callN (f : CaptureByValue) : Nat → State → State
  | 0, s => s
  | n + 1, s => CaptureByValue.callN f n (f.call s)

/-- The closure `f` invoked `n` times in succession: the values returned, in
order, the closure object after the last call and the state. -/
def MutableLambda.callN : Nat → MutableLambda → State →
    List Int × MutableLambda × State
  | 0, f, s => ([], f, s)
  | n + 1, f, s =>
    let r := f.call s
    let rest := MutableLambda.callN n r.2.1 r.2.2
    (r.1 :: rest.1, rest.2.1, rest.2.2)

/-! ## Lemmas -/

theorem wrapInt_of_inRange {z : Int} (h : inRange z) : wrapInt z = z := by
  unfold inRange INT_MIN INT_MAX at h
  unfold wrapInt
  omega

theorem numericValues_append (xs ys : List Tok) :
    numericValues (xs ++ ys) = numericValues xs ++ numericValues ys := by
  induction xs with
  | nil => rfl
  | cons t ts ih => cases t <;> simp [numericValues, ih]

theorem isEven_iff_dvd (n : Int) : isEven n = true ↔ (2 : Int) ∣ n := by
  unfold isEven
  rw [beq_iff_eq]
  constructor
  · intro h
    exact Int.dvd_of_tmod_eq_zero h
  · intro h
    exact Int.tmod_eq_zero_of_dvd h

theorem copy_if_eq (pred : Int → Bool) (src dest : List Int) :
    copy_if pred src dest = dest ++ src.filter pred := by
  induction src generalizing dest with
  | nil => simp [copy_if]
  | cons n rest ih =>
    by_cases hp : pred n = true
    · simp [copy_if, ih, hp]
    · simp [copy_if, ih, hp]

theorem filterEven_eq_filter (numbers : List Int) :
    filterEven numbers = numbers.filter isEven := by
  simp [filterEven, copy_if_eq]

theorem count_filter_isEven (n : Int) (numbers : List Int) :
    (numbers.filter isEven).count n
      = if (2 : Int) ∣ n then numbers.count n else 0 := by
  induction numbers with
  | nil => simp
  | cons m rest ih =>
    by_cases hm : isEven m = true
    · by_cases hmn : m = n
      · subst hmn
        have hd := (isEven_iff_dvd m).1 hm
        simp [List.filter_cons, hm, hd] at ih ⊢
      · simp [List.filter_cons, hm, List.count_cons, hmn, ih]
    · have hd : ¬ (2 : Int) ∣ m := fun h => hm ((isEven_iff_dvd m).2 h)
      by_cases hmn : m = n
      · subst hmn
        simp [List.filter_cons, hm, hd] at ih ⊢
        exact ih
      · simp [List.filter_cons, hm, List.count_cons, hmn, ih]

@[simp] theorem put_cout (ts : List Tok) (s : State) :
    (put ts s).cout = s.cout ++ ts := rfl

@[simp] theorem put_vars (ts : List Tok) (s : State) :
    (put ts s).vars = s.vars := rfl

theorem byValue_callN_vars (f : CaptureByValue) (n : Nat) (s : State) :
    (f.callN n s).vars = s.vars := by
  induction n generalizing s with
  | zero => rfl
  | succ n ih => simp [CaptureByValue.callN, ih, CaptureByValue.call]

theorem byValue_callN_values (f : CaptureByValue) (n : Nat) (s : State) :
    numericValues (f.callN n s).cout
      = numericValues s.cout ++ List.replicate n f.x := by
  induction n generalizing s with
  | zero => simp [CaptureByValue.callN]
  | succ n ih =>
    simp [CaptureByValue.callN, ih, CaptureByValue.call, numericValues_append,
      numericValues, List.replicate_succ]

theorem mutable_callN_state (n : Nat) (f : MutableLambda) (s : State) :
    (MutableLambda.callN n f s).2.2 = s := by
  induction n generalizing f s with
  | zero => rfl
  | succ n ih => simp [MutableLambda.callN, ih, MutableLambda.call]

theorem mutable_callN_counter (n : Nat) (f : MutableLambda) (s : State)
    (hlo : INT_MIN ≤ f.counter) (hhi : f.counter + n ≤ INT_MAX) :
    (MutableLambda.callN n f s).2.1 = { counter := f.counter + n } := by
  induction n generalizing f s with
  | zero => simp [MutableLambda.callN]
  | succ n ih =>
    have h1 : wrapInt (f.counter + 1) = f.counter + 1 := by
      apply wrapInt_of_inRange
      unfold inRange
      unfold INT_MIN at *
      push_cast at hhi
      constructor <;> omega
    have h2 := ih { counter := f.counter + 1 } s
      (by simp only; unfold INT_MIN at *; omega)
      (by simp only; push_cast at hhi; omega)
    simp only [MutableLambda.callN, MutableLambda.call, h1]
    rw [h2]
    simp only [MutableLambda.mk.injEq]
    push_cast
    omega

theorem mutable_callN_values (n : Nat) (f : MutableLambda) (s : State)
    (hlo : INT_MIN ≤ f.counter) (hhi : f.counter + n ≤ INT_MAX) :
    (MutableLambda.callN n f s).1
      = (List.range n).map (fun i : Nat => f.counter + ((i : Int) + 1)) := by
  induction n generalizing f s with
  | zero => simp [MutableLambda.callN]
  | succ n ih =>
    have h1 : wrapInt (f.counter + 1) = f.counter + 1 := by
      apply wrapInt_of_inRange
      unfold inRange
      unfold INT_MIN at *
      push_cast at hhi
      constructor <;> omega
    have h2 := ih { counter := f.counter + 1 } s
      (by simp only; unfold INT_MIN at *; omega)
      (by simp only; push_cast at hhi; omega)
    simp only [MutableLambda.callN, MutableLambda.call, h1]
    rw [h2, List.range_succ_eq_map, List.map_cons, List.map_map]
    simp only [Nat.cast_zero, zero_add, List.cons.injEq, true_and]
    apply List.map_congr_left
    intro i _
    simp only [Function.comp_apply, Nat.cast_succ]
    omega

theorem printEach_vars (l : List Int) (s : State) :
    (printEach l s).vars = s.vars := by
  induction l generalizing s with
  | nil => rfl
  | cons n rest ih => simp [printEach, ih]

theorem printEach_values (l : List Int) (s : State) :
    numericValues (printEach l s).cout = numericValues s.cout ++ l := by
  induction l generalizing s with
  | nil => simp [printEach]
  | cons n rest ih =>
    simp [printEach, ih, numericValues_append, numericValues]

theorem step1_values (s : State) :
    numericValues (step1 s).cout = numericValues s.cout := by
  simp [step1, simpleLambda, numericValues_append, numericValues]

theorem step2_values (s : State) :
    numericValues (step2 s).cout = numericValues s.cout ++ [8] := by
  simp [step2, addNumbers, wrapInt, numericValues_append, numericValues]

theorem step3_values (s : State) :
    numericValues (step3 s).cout = numericValues s.cout ++ [10] := by
  simp [step3, captureByValue, CaptureByValue.call, numericValues_append,
    numericValues]

theorem step4_values (s : State) :
    numericValues (step4 s).cout = numericValues s.cout ++ [25, 25] := by
  simp [step4, captureByReference, wrapInt, numericValues_append, numericValues]

theorem step5_values (s : State) :
    numericValues (step5 s).cout = numericValues s.cout ++ [1, 2, 3, 12] := by
  simp [step5, captureAll, CaptureAll.call, wrapInt, numericValues_append,
    numericValues]

theorem step6_values (s : State) :
    numericValues (step6 s).cout = numericValues s.cout ++ [2, 4, 6, 8, 10] := by
  have h : filterEven [1, 2, 3, 4, 5, 6, 7, 8, 9, 10] = [2, 4, 6, 8, 10] := by
    decide
  simp [step6, h, printEach_values, numericValues_append, numericValues]

theorem step7_values (s : State) :
    numericValues (step7 s).cout = numericValues s.cout ++ [1, 2] := by
  simp [step7, mutableLambda, MutableLambda.call, wrapInt, numericValues_append,
    numericValues]

theorem step8_values (s : State) :
    numericValues (step8 s).cout = numericValues s.cout ++ [10, 15] := by
  simp [step8, multiplier, Multiplied.call, wrapInt, numericValues_append,
    numericValues]

/-! ## Claims -/

/-- C1: for every list `numbers`, the filtering step yields exactly the
elements of `numbers` divisible by 2, in their original order (it is the
`List.filter` of divisibility and a sublist of `numbers`) and with their
original multiplicity (an even value occurs as often as in `numbers`, an odd
one never); the list 1..10 gives `[2, 4, 6, 8, 10]`. -/
theorem filterEven_spec (numbers : List Int) :
    filterEven numbers = numbers.filter (fun n => decide ((2 : Int) ∣ n))
    ∧ List.Sublist (filterEven numbers) numbers
    ∧ (∀ n : Int, n ∈ filterEven numbers ↔ n ∈ numbers ∧ (2 : Int) ∣ n)
    ∧ (∀ n : Int, (filterEven numbers).count n
        = if (2 : Int) ∣ n then numbers.count n else 0)
    ∧ filterEven [1, 2, 3, 4, 5, 6, 7, 8, 9, 10] = [2, 4, 6, 8, 10] := by
  have hfun : isEven = fun n => decide ((2 : Int) ∣ n) := by
    funext n
    by_cases h : (2 : Int) ∣ n
    · simp [h, (isEven_iff_dvd n).2 h]
    · have : isEven n = false := by
        cases hb : isEven n with
        | false => rfl
        | true => exact absurd ((isEven_iff_dvd n).1 hb) h
      simp [h, this]
  refine ⟨?_, ?_, ?_, ?_, ?_⟩
  · rw [filterEven_eq_filter, hfun]
  · rw [filterEven_eq_filter]
    exact List.filter_sublist numbers
  · intro n
    rw [filterEven_eq_filter, List.mem_filter, isEven_iff_dvd]
  · intro n
    rw [filterEven_eq_filter]
    exact count_filter_isEven n numbers
  · decide

/-- C2: the filtering step is idempotent: filtering the result of filtering a
list gives the result of filtering it once; `[2, 4, 6, 8, 10]` filtered again is
`[2, 4, 6, 8, 10]`. -/
theorem filterEven_idempotent (L : List Int) :
    filterEven (filterEven L) = filterEven L
    ∧ filterEven [2, 4, 6, 8, 10] = [2, 4, 6, 8, 10] := by
  constructor
  · rw [filterEven_eq_filter, filterEven_eq_filter, List.filter_filter]
    simp
  · decide

/-- C3: an instance of the mutable lambda created while the enclosing
`counter` holds `c` returns, as long as `c + n` does not overflow, `c + 1`,
`c + 2`, ..., `c + n` on its first `n` invocations; created from `counter = 0`
it returns 1 and then 2 (also as step 7 prints them); and after any number of
invocations the enclosing state, the variable `counter` included, is what it
was. -/
theorem mutableLambda_spec (s : State) (c : Int) (n : Nat)
    (hc : s.vars.counter = c) (hr : inRange c) (hn : c + n ≤ INT_MAX) :
    (MutableLambda.callN n (mutableLambda s.vars) s).1
        = (List.range n).map (fun i : Nat => c + ((i : Int) + 1))
    ∧ (c = 0 →
        ((mutableLambda s.vars).call s).1 = 1
        ∧ ((((mutableLambda s.vars).call s).2.1).call
            ((mutableLambda s.vars).call s).2.2).1 = 2)
    ∧ (∀ m : Nat,
        (MutableLambda.callN m (mutableLambda s.vars) s).2.2.vars.counter = c)
    ∧ (∀ m : Nat, (MutableLambda.callN m (mutableLambda s.vars) s).2.2 = s)
    ∧ numericValues (step7 s).cout = numericValues s.cout ++ [1, 2]
    ∧ (step7 s).vars.counter = 0 := by
  refine ⟨?_, ?_, ?_, ?_, ?_, ?_⟩
  · have h := mutable_callN_values n (mutableLambda s.vars) s
      (by simp only [mutableLambda, hc]; exact hr.1)
      (by simp only [mutableLambda, hc]; exact hn)
    simpa [mutableLambda, hc] using h
  · intro h0
    subst h0
    simp [mutableLambda, MutableLambda.call, hc, wrapInt]
  · intro m
    rw [mutable_callN_state, hc]
  · intro m
    exact mutable_callN_state m _ s
  · exact step7_values s
  · simp [step7, mutableLambda, MutableLambda.call]

/-- Witness of C3: an instance created from `counter = 0` and invoked three
times returns 1, 2, 3. -/
theorem mutableLambda_spec_witness :
    frame0.counter = 0 ∧ inRange 0 ∧ (0 : Int) + (3 : Nat) ≤ INT_MAX
    ∧ (MutableLambda.callN 3 (mutableLambda frame0)
        { vars := frame0, cout := [] }).1 = [1, 2, 3] := by
  have h := (mutableLambda_spec { vars := frame0, cout := [] } 0 3 rfl
    (by decide) (by decide)).1
  exact ⟨rfl, by decide, by decide, by simpa [List.range_succ] using h⟩

/-- C4: whatever the number `k` of earlier invocations of a first instance of
the mutable lambda, a second instance created from the same enclosing
`counter = 0` returns 1 on its first invocation, and the first instance
returns next, and becomes, the same after the second was invoked as before
(which is `k + 1` while that is representable). -/
theorem mutableLambda_independent (s : State) (k : Nat)
    (h0 : s.vars.counter = 0) :
    let r1 := MutableLambda.callN k (mutableLambda s.vars) s
    let second := mutableLambda r1.2.2.vars
    let r2 := second.call r1.2.2
    r2.1 = 1
    ∧ (r1.2.1.call r2.2.2).1 = (r1.2.1.call r1.2.2).1
    ∧ (r1.2.1.call r2.2.2).2.1 = (r1.2.1.call r1.2.2).2.1
    ∧ ((k : Int) < INT_MAX → (r1.2.1.call r2.2.2).1 = (k : Int) + 1) := by
  intro r1 second r2
  have hs : r1.2.2 = s := mutable_callN_state k _ s
  refine ⟨?_, rfl, rfl, ?_⟩
  · show (second.call r1.2.2).1 = 1
    simp [second, hs, mutableLambda, MutableLambda.call, h0, wrapInt]
  · intro hk
    have hc := mutable_callN_counter k (mutableLambda s.vars) s
      (by simp only [mutableLambda, h0]; decide)
      (by simp only [mutableLambda, h0]; omega)
    have h1 : wrapInt ((k : Int) + 1) = (k : Int) + 1 := by
      apply wrapInt_of_inRange
      unfold inRange
      unfold INT_MIN INT_MAX at *
      constructor <;> omega
    simp only [mutableLambda, h0, zero_add] at hc
    show (r1.2.1.call (second.call r1.2.2).2.2).1 = (k : Int) + 1
    simp only [r1, MutableLambda.call, mutableLambda, h0]
    rw [hc]
    exact h1

/-- Witness of C4: after two invocations of a first instance, a second one
returns 1 and the first one returns 3 next. -/
theorem mutableLambda_independent_witness :
    frame0.counter = 0
    ∧ ((mutableLambda (MutableLambda.callN 2 (mutableLambda frame0)
          { vars := frame0, cout := [] }).2.2.vars).call
        (MutableLambda.callN 2 (mutableLambda frame0)
          { vars := frame0, cout := [] }).2.2).1 = 1 :=
  ⟨rfl, (mutableLambda_independent { vars := frame0, cout := [] } 2 rfl).1⟩

/-- C5: for `x * factor` representable, invoking the closure made by
`multiplier(factor)` on `x` returns `x * factor` and leaves the state as it
was; closures made by the factory do not interfere: with `doubler` and
`tripler` both created first, `doubler(5)` is 10 and `tripler(5)` is 15 in
either order of invocation, as step 8 prints them, and the result of one
closure is the same after any other closure was created and invoked. -/
theorem multiplier_spec (factor x : Int) (s : State)
    (h : inRange (x * factor)) :
    (multiplier factor s).1.call x (multiplier factor s).2 = (x * factor, s)
    ∧ (∀ (g z : Int) (s1 : State),
        ((multiplier factor s).1.call x
            ((multiplier g (multiplier factor s).2).1.call z s1).2).1
          = x * factor)
    ∧ (let d := multiplier 2 s
       let t := multiplier 3 d.2
       (d.1.call 5 t.2).1 = 10 ∧ (t.1.call 5 t.2).1 = 15
       ∧ (t.1.call 5 (d.1.call 5 t.2).2).1 = 15
       ∧ (d.1.call 5 (t.1.call 5 t.2).2).1 = 10)
    ∧ numericValues (step8 s).cout = numericValues s.cout ++ [10, 15] := by
  have hw := wrapInt_of_inRange h
  refine ⟨?_, ?_, ?_, ?_⟩
  · simp [multiplier, Multiplied.call, hw]
  · intro g z s1
    simp [multiplier, Multiplied.call, hw]
  · simp [multiplier, Multiplied.call, wrapInt]
  · exact step8_values s

/-- Witness of C5: `multiplier(2)(5)` is 10. -/
theorem multiplier_spec_witness :
    inRange (5 * 2)
    ∧ (multiplier 2 { vars := frame0, cout := [] }).1.call 5
        (multiplier 2 { vars := frame0, cout := [] }).2
      = (5 * 2, { vars := frame0, cout := [] }) :=
  ⟨by decide, (multiplier_spec 2 5 { vars := frame0, cout := [] } (by decide)).1⟩

/-- C6: for every state of the enclosing scope with `b + 10` representable,
creating `captureAll` and invoking it once changes nothing of the enclosing
variables but `b`, which becomes its value before the call plus 10 (`a` and
`c` are unchanged), and what it writes is `a`, the value of `b` before the
increment, and `c`; from `a = 1, b = 2, c = 3` the scope afterwards has
`a = 1, b = 12, c = 3`, and step 5 prints 1, 2, 3 and then 12. -/
theorem captureAll_spec (s : State) (h : inRange (s.vars.b + 10)) :
    let s1 := (captureAll s.vars).call s
    s1.vars.a = s.vars.a ∧ s1.vars.c = s.vars.c
    ∧ s1.vars.b = s.vars.b + 10
    ∧ s1.vars = { s.vars with b := s.vars.b + 10 }
    ∧ s1.cout = s.cout ++ [Tok.str "a: ", Tok.num s.vars.a, Tok.str ", b: ",
        Tok.num s.vars.b, Tok.str ", c: ", Tok.num s.vars.c, Tok.endl]
    ∧ numericValues s1.cout
        = numericValues s.cout ++ [s.vars.a, s.vars.b, s.vars.c]
    ∧ (s.vars.a = 1 → s.vars.b = 2 → s.vars.c = 3 →
        s1.vars.a = 1 ∧ s1.vars.b = 12 ∧ s1.vars.c = 3)
    ∧ numericValues (step5 s).cout = numericValues s.cout ++ [1, 2, 3, 12]
    ∧ (step5 s).vars.a = 1 ∧ (step5 s).vars.b = 12 ∧ (step5 s).vars.c = 3 := by
  intro s1
  have hw := wrapInt_of_inRange h
  have hb : s1.vars.b = s.vars.b + 10 := by
    simp [s1, captureAll, CaptureAll.call, hw]
  refine ⟨rfl, rfl, hb, ?_, ?_, ?_, ?_, ?_, ?_, ?_, ?_⟩
  · simp [s1, captureAll, CaptureAll.call, hw]
  · simp [s1, captureAll, CaptureAll.call]
  · simp [s1, captureAll, CaptureAll.call, numericValues_append, numericValues]
  · intro ha hb2 hc
    refine ⟨ha, ?_, hc⟩
    rw [hb, hb2]
    rfl
  · exact step5_values s
  · simp [step5, captureAll, CaptureAll.call]
  · simp [step5, captureAll, CaptureAll.call, wrapInt]
  · simp [step5, captureAll, CaptureAll.call]

/-- Witness of C6 at `a = 1, b = 2, c = 3`: `b` is 12 after the call. -/
theorem captureAll_spec_witness :
    inRange ((2 : Int) + 10)
    ∧ ((captureAll { frame0 with a := 1, b := 2, c := 3 }).call
        { vars := { frame0 with a := 1, b := 2, c := 3 }, cout := [] }).vars.b
      = 2 + 10 :=
  ⟨by decide,
    (captureAll_spec { vars := { frame0 with a := 1, b := 2, c := 3 }, cout := [] }
      (by decide)).2.2.1⟩

/-- C7: for every state of the enclosing scope with `y + 5` representable, one
invocation of `captureByReference` sets the enclosing `y` to `y + 5` and
changes no other variable, the value it writes is that new value, which is
what the enclosing scope reads afterwards; from 20 the referent becomes 25,
and step 4 prints 25 inside the closure and 25 after it. -/
theorem captureByReference_spec (s : State) (h : inRange (s.vars.y + 5)) :
    let s1 := captureByReference s
    s1.vars.y = s.vars.y + 5
    ∧ s1.vars = { s.vars with y := s.vars.y + 5 }
    ∧ s1.cout
        = s.cout ++ [Tok.str "Modified y: ", Tok.num (s.vars.y + 5), Tok.endl]
    ∧ numericValues s1.cout = numericValues s.cout ++ [s1.vars.y]
    ∧ (s.vars.y = 20 → s1.vars.y = 25)
    ∧ numericValues (step4 s).cout = numericValues s.cout ++ [25, 25]
    ∧ (step4 s).vars.y = 25 := by
  intro s1
  have hw := wrapInt_of_inRange h
  have hy : s1.vars.y = s.vars.y + 5 := by
    simp [s1, captureByReference, hw]
  refine ⟨hy, ?_, ?_, ?_, ?_, step4_values s, ?_⟩
  · simp [s1, captureByReference, hw]
  · simp [s1, captureByReference, hw]
  · simp [s1, captureByReference, hw, numericValues_append, numericValues]
  · intro h20
    rw [hy, h20]
    rfl
  · simp [step4, captureByReference, wrapInt]

/-- Witness of C7 at `y = 20`: the referent is 25 after the call. -/
theorem captureByReference_spec_witness :
    inRange ((20 : Int) + 5)
    ∧ (captureByReference
        { vars := { frame0 with y := 20 }, cout := [] }).vars.y = 20 + 5 :=
  ⟨by decide,
    (captureByReference_spec { vars := { frame0 with y := 20 }, cout := [] }
      (by decide)).1⟩

/-- C8: let the closure `captureByValue` be created while `x` holds `v`, and
let `w` be assigned to `x` afterwards.  Then every invocation writes `v`: `n`
invocations in succession write `v` `n` times, and an invocation in any later
state `s2` writes `v`; no invocation changes an enclosing variable, so `x`
still holds `w`; for `x = 10` the closure writes 10, as step 3 prints it. -/
theorem captureByValue_spec (s : State) (w : Int) (n : Nat) :
    let f := captureByValue s.vars
    let s1 : State := { s with vars := { s.vars with x := w } }
    numericValues (f.callN n s1).cout
        = numericValues s1.cout ++ List.replicate n s.vars.x
    ∧ (f.callN n s1).vars = s1.vars
    ∧ (f.callN n s1).vars.x = w
    ∧ (∀ s2 : State,
        (f.call s2).cout
            = s2.cout ++ [Tok.str "Captured value: ", Tok.num s.vars.x, Tok.endl]
        ∧ (f.call s2).vars = s2.vars)
    ∧ (s.vars.x = 10 → numericValues (f.call s1).cout
        = numericValues s1.cout ++ [10])
    ∧ numericValues (step3 s).cout = numericValues s.cout ++ [10] := by
  intro f s1
  refine ⟨?_, ?_, ?_, ?_, ?_, step3_values s⟩
  · exact byValue_callN_values f n s1
  · exact byValue_callN_vars f n s1
  · rw [byValue_callN_vars f n s1]
  · intro s2
    exact ⟨rfl, rfl⟩
  · intro h10
    simp [f, s1, captureByValue, CaptureByValue.call, h10, numericValues_append,
      numericValues]

/-- C9: for `a + b` representable, `addNumbers(a, b)` returns `a + b` and
leaves the state as it was; its value is the same in every state (it depends
on `a` and `b` only); it is commutative; `addNumbers(5, 3)` is 8. -/
theorem addNumbers_spec (a b : Int) (s : State) (h : inRange (a + b)) :
    addNumbers a b s = (a + b, s)
    ∧ (∀ s2 : State, (addNumbers a b s2).1 = a + b ∧ (addNumbers a b s2).2 = s2)
    ∧ addNumbers a b s = addNumbers b a s
    ∧ (addNumbers 5 3 s).1 = 8 := by
  have hw := wrapInt_of_inRange h
  refine ⟨?_, ?_, ?_, ?_⟩
  · simp [addNumbers, hw]
  · intro s2
    simp [addNumbers, hw]
  · simp [addNumbers, Int.add_comm]
  · simp [addNumbers, wrapInt]

/-- Witness of C9: `addNumbers(5, 3)` returns `5 + 3`. -/
theorem addNumbers_spec_witness :
    inRange ((5 : Int) + 3)
    ∧ addNumbers 5 3 { vars := frame0, cout := [] }
      = (5 + 3, { vars := frame0, cout := [] }) :=
  ⟨by decide, (addNumbers_spec 5 3 { vars := frame0, cout := [] } (by decide)).1⟩

/-- C10: a run of `demonstrateLambdaExpressions` writes the numeric values
8; 10; 25, 25; 1, 2, 3, 12; 2, 4, 6, 8, 10; 1, 2; 10, 15 in this order,
whatever the stream held before (the run is a function of nothing else); and
each step writes its own values in every incoming state, that is, whatever
values the variables of the other steps hold. -/
theorem demonstrateLambdaExpressions_values :
    numericValues (demonstrateLambdaExpressions [])
        = [8, 10, 25, 25, 1, 2, 3, 12, 2, 4, 6, 8, 10, 1, 2, 10, 15]
    ∧ (∀ out : List Tok, numericValues (demonstrateLambdaExpressions out)
        = numericValues out
            ++ [8, 10, 25, 25, 1, 2, 3, 12, 2, 4, 6, 8, 10, 1, 2, 10, 15])
    ∧ (∀ s : State, numericValues (step1 s).cout = numericValues s.cout)
    ∧ (∀ s : State, numericValues (step2 s).cout = numericValues s.cout ++ [8])
    ∧ (∀ s : State, numericValues (step3 s).cout = numericValues s.cout ++ [10])
    ∧ (∀ s : State,
        numericValues (step4 s).cout = numericValues s.cout ++ [25, 25])
    ∧ (∀ s : State,
        numericValues (step5 s).cout = numericValues s.cout ++ [1, 2, 3, 12])
    ∧ (∀ s : State,
        numericValues (step6 s).cout = numericValues s.cout ++ [2, 4, 6, 8, 10])
    ∧ (∀ s : State,
        numericValues (step7 s).cout = numericValues s.cout ++ [1, 2])
    ∧ (∀ s : State,
        numericValues (step8 s).cout = numericValues s.cout ++ [10, 15]) := by
  have hall : ∀ out : List Tok, numericValues (demonstrateLambdaExpressions out)
      = numericValues out
          ++ [8, 10, 25, 25, 1, 2, 3, 12, 2, 4, 6, 8, 10, 1, 2, 10, 15] := by
    intro out
    unfold demonstrateLambdaExpressions
    rw [step8_values, step7_values, step6_values, step5_values, step4_values,
      step3_values, step2_values, step1_values]
    simp
  refine ⟨?_, hall, step1_values, step2_values, step3_values, step4_values,
    step5_values, step6_values, step7_values, step8_values⟩
  simpa [numericValues] using hall []

end LambdaExamples
